import Mathlib

/-!
Verification of the lazy-static one-time-initialization primitive.

The repository's surface layer (`src/lib.rs`) provides the `lazy_static!` /
`__lazy_static_internal!` macros, the `LazyStatic` trait and the free function
`initialize`.  The cell implementation itself (`lazy.rs` / `nightly_lazy.rs` /
`core_lazy.rs`, declared at `lib.rs` lines 98-110) is not present in the
sources, so the atomic state machine, the storage and the Accessor
(get-or-init) algorithm are modelled from the specification (spec.md sections
3, 4.1, 4.2, 4.3).

Two complementary embeddings are developed:

1. A small-step interleaving semantics `Step` over a system state `Sys n`
   holding one cell and `n` threads, each running the Accessor algorithm of
   spec section 4.3 (CAS claim, winner initialization, release publication,
   loser spin-wait), with the initializer's side effects tracked by a counter.
   Nondeterministic choices model an initializer that panics before returning
   and an initializer that recursively calls the Accessor on its own cell.

2. A sequential functional model `LazyCell.get` of the same Accessor, used for
   the single-thread algebraic claims about the macro layer, `LazyStatic::
   initialize` and the free function `initialize` (lib.rs lines 118-182,
   144-148, 216-218), together with a model of the expansion performed by
   `__lazy_static_internal!`.
-/

/-- Modelled from the spec: the cell lifecycle states of section 4.1,
`Uninitialized` (0), `Initializing` (1), `Initialized` (2). -/
inductive CellState : Type
  | uninitialized
  | initializing
  | initialized
deriving DecidableEq, Repr

/-- Modelled from the spec: the control point of one thread executing the
Accessor algorithm of section 4.3.

* `start`: about to read `state` / attempt the claiming CAS (step 1/2);
* `spinning`: lost the CAS, polling `state` until `Initialized` (section 4.1);
* `runInit`: won the CAS, about to evaluate the initializer `f`;
* `publish`: wrote the value into storage, about to perform the release
  transition to `Initialized`;
* `panicked`: the initializer panicked before returning (section 4.3 failure
  condition) — the thread takes no further steps;
* `recStart` / `recSpin`: the initializer recursively invoked the Accessor on
  the same cell (section 7, recursive self-access): the nested call is about
  to attempt its claim / is spinning;
* `done a`: the call returned the reference with address `a`. -/
inductive PC : Type
  | start
  | spinning
  | runInit
  | publish
  | panicked
  | recStart
  | recSpin
  | done (a : Nat)
deriving DecidableEq, Repr

/-- A control point holding the initialization claim: the thread is between
winning the `Uninitialized → Initializing` CAS and the publication (or is
stuck in the panicked / recursive-deadlock variants of that window). -/
def PC.isActive : PC → Bool
  | .runInit => true
  | .publish => true
  | .panicked => true
  | .recStart => true
  | .recSpin => true
  | _ => false

/-- The call has returned. -/
def PC.isDone : PC → Bool
  | .done _ => true
  | _ => false

/-- Modelled from the spec: the process-wide state of one cell (section 3)
together with `n` threads racing on it.  `storage` holds the address of the
published value (`none` while the slot is empty), `counter` counts evaluations
of the user-supplied initializer `f` (its side-effect counter, section 8),
and `teardowns` counts invocations of the stored value's destructor /
teardown action (section 8, no-finalization property). -/
structure Sys (n : Nat) : Type where
  cell : CellState
  storage : Option Nat
  counter : Nat
  teardowns : Nat
  pcs : Fin n → PC

/-- Modelled from the spec: the initial configuration — a fresh cell, state
`Uninitialized`, empty storage, initializer never run, all threads about to
call the Accessor. -/
def Sys.init (n : Nat) : Sys n :=
  { cell := CellState.uninitialized
    storage := Option.none
    counter := 0
    teardowns := 0
    pcs := fun _ => PC.start }

/-- Modelled from the spec: one atomic step of the interleaving semantics of
the Accessor algorithm (sections 4.1, 4.3).  Any thread may move at any time;
each constructor is one atomic action of that thread. -/
inductive Step {n : Nat} : Sys n → Sys n → Prop
  /-- Accessor step 1, fast path: `state` reads `Initialized`, return the
  stored reference immediately. -/
  | fastPath (s : Sys n) (i : Fin n) (a : Nat)
      (hpc : s.pcs i = PC.start) (hc : s.cell = CellState.initialized)
      (hs : s.storage = some a) :
      Step s { s with pcs := Function.update s.pcs i (PC.done a) }
  /-- Accessor step 2, CAS success: this thread wins the
  `Uninitialized → Initializing` transition and will run the initializer. -/
  | casWin (s : Sys n) (i : Fin n)
      (hpc : s.pcs i = PC.start) (hc : s.cell = CellState.uninitialized) :
      Step s { s with cell := CellState.initializing
                      pcs := Function.update s.pcs i PC.runInit }
  /-- Accessor step 2, CAS failure: another thread already transitioned (or
  is transitioning); move to the spin-wait. -/
  | casLose (s : Sys n) (i : Fin n)
      (hpc : s.pcs i = PC.start) (hc : s.cell = CellState.initializing) :
      Step s { s with pcs := Function.update s.pcs i PC.spinning }
  /-- Spin-wait exit: a poll of `state` reads `Initialized`; return the
  stored reference. -/
  | spinExit (s : Sys n) (i : Fin n) (a : Nat)
      (hpc : s.pcs i = PC.spinning) (hc : s.cell = CellState.initialized)
      (hs : s.storage = some a) :
      Step s { s with pcs := Function.update s.pcs i (PC.done a) }
  /-- The winner's initializer `f` returns a value: it is written into
  storage at some address `v` and the side-effect counter increments. -/
  | initOk (s : Sys n) (i : Fin n) (v : Nat)
      (hpc : s.pcs i = PC.runInit) :
      Step s { s with storage := some v
                      counter := s.counter + 1
                      pcs := Function.update s.pcs i PC.publish }
  /-- The winner's initializer panics before returning: the failure
  propagates to this thread, which performs no further cell action. -/
  | initPanic (s : Sys n) (i : Fin n)
      (hpc : s.pcs i = PC.runInit) :
      Step s { s with pcs := Function.update s.pcs i PC.panicked }
  /-- The winner's initializer, before returning, recursively calls the
  Accessor on the same cell. -/
  | initRecurse (s : Sys n) (i : Fin n)
      (hpc : s.pcs i = PC.runInit) :
      Step s { s with pcs := Function.update s.pcs i PC.recStart }
  /-- Release publication: the winner performs `Initializing → Initialized`
  and returns the stored reference. -/
  | publishInit (s : Sys n) (i : Fin n) (a : Nat)
      (hpc : s.pcs i = PC.publish) (hs : s.storage = some a) :
      Step s { s with cell := CellState.initialized
                      pcs := Function.update s.pcs i (PC.done a) }
  /-- The recursive Accessor call runs the same algorithm: its fast path
  would return and resume the initializer (unreachable in fact). -/
  | recFast (s : Sys n) (i : Fin n)
      (hpc : s.pcs i = PC.recStart) (hc : s.cell = CellState.initialized) :
      Step s { s with pcs := Function.update s.pcs i PC.runInit }
  /-- The recursive Accessor call runs the same algorithm: its CAS would win
  on an `Uninitialized` cell (unreachable in fact). -/
  | recWin (s : Sys n) (i : Fin n)
      (hpc : s.pcs i = PC.recStart) (hc : s.cell = CellState.uninitialized) :
      Step s { s with cell := CellState.initializing
                      pcs := Function.update s.pcs i PC.runInit }
  /-- The recursive Accessor call finds `state = Initializing`, fails its
  claim attempt and enters the spin-wait. -/
  | recLose (s : Sys n) (i : Fin n)
      (hpc : s.pcs i = PC.recStart) (hc : s.cell = CellState.initializing) :
      Step s { s with pcs := Function.update s.pcs i PC.recSpin }

/-- Configurations reachable from the fresh cell by interleaved Accessor
steps. -/
def Reachable {n : Nat} (s : Sys n) : Prop :=
  Relation.ReflTransGen Step (Sys.init n) s


/-- The inductive invariant of the cell (spec section 3 invariants): the
`teardowns` counter never moves; while `Uninitialized` nothing has happened;
while `Initializing` exactly one thread (the winner) holds the claim, and the
storage/counter are written exactly when the winner has passed its
initializer; once `Initialized` the initializer has run exactly once and the
storage is published; a returned call saw `Initialized` and the published
address. -/
structure SysInv {n : Nat} (s : Sys n) : Prop where
  td : s.teardowns = 0
  uninit : s.cell = CellState.uninitialized →
    s.counter = 0 ∧ s.storage = Option.none ∧ ∀ i, s.pcs i = PC.start
  claiming : s.cell = CellState.initializing →
    ∃ w, (s.pcs w).isActive = true ∧
      (∀ i, (s.pcs i).isActive = true → i = w) ∧
      (s.pcs w = PC.publish → s.counter = 1 ∧ ∃ a, s.storage = some a) ∧
      (s.pcs w ≠ PC.publish → s.counter = 0 ∧ s.storage = Option.none)
  published : s.cell = CellState.initialized →
    s.counter = 1 ∧ (∃ a, s.storage = some a) ∧ ∀ i, (s.pcs i).isActive = false
  doneInv : ∀ i a, s.pcs i = PC.done a →
    s.cell = CellState.initialized ∧ s.storage = some a

/-- A thread holding the claim implies the cell is mid-initialization. -/
theorem SysInv.active_initializing {n : Nat} {s : Sys n} (hI : SysInv s)
    {i : Fin n} (h : (s.pcs i).isActive = true) :
    s.cell = CellState.initializing := by
  cases hcell : s.cell with
  | uninitialized =>
      have hst := (hI.uninit hcell).2.2 i
      rw [hst] at h
      exact Bool.noConfusion h
  | initializing => rfl
  | initialized =>
      have hst := (hI.published hcell).2.2 i
      rw [hst] at h
      exact Bool.noConfusion h

/-- A thread holding the claim is the unique winner, and the counter/storage
are determined by whether it has passed its initializer. -/
theorem SysInv.active_winner {n : Nat} {s : Sys n} (hI : SysInv s) {i : Fin n}
    (hai : (s.pcs i).isActive = true) :
    s.cell = CellState.initializing ∧
    (∀ j, (s.pcs j).isActive = true → j = i) ∧
    (s.pcs i = PC.publish → s.counter = 1 ∧ ∃ a, s.storage = some a) ∧
    (s.pcs i ≠ PC.publish → s.counter = 0 ∧ s.storage = Option.none) := by
  have hcell := hI.active_initializing hai
  obtain ⟨w, hwa, huniq, hpub, hnpub⟩ := hI.claiming hcell
  have hiw : i = w := huniq i hai
  subst hiw
  exact ⟨hcell, huniq, hpub, hnpub⟩

/-- The invariant holds initially. -/
theorem SysInv.initial (n : Nat) : SysInv (Sys.init n) := by
  refine ⟨rfl, fun _ => ⟨rfl, rfl, fun _ => rfl⟩, ?_, ?_, ?_⟩
  · intro h; exact CellState.noConfusion h
  · intro h; exact CellState.noConfusion h
  · intro i a h; exact PC.noConfusion h

/-- The invariant is preserved by every step. -/
theorem SysInv.preserved {n : Nat} {s s' : Sys n} (hI : SysInv s) (h : Step s s') :
    SysInv s' := by
  cases h with
  | fastPath i a hpc hc hs =>
      refine ⟨hI.td, ?_, ?_, ?_, ?_⟩
      · intro hu; exact CellState.noConfusion (hc.symm.trans hu)
      · intro hcl; exact CellState.noConfusion (hc.symm.trans hcl)
      · intro _
        obtain ⟨hcnt, hst, hact⟩ := hI.published hc
        refine ⟨hcnt, hst, ?_⟩
        intro j
        show (Function.update s.pcs i (PC.done a) j).isActive = false
        by_cases hji : j = i
        · subst hji; rw [Function.update_same]; rfl
        · rw [Function.update_noteq hji]; exact hact j
      · intro j b hj
        have hj2 : Function.update s.pcs i (PC.done a) j = PC.done b := hj
        by_cases hji : j = i
        · subst hji
          rw [Function.update_same] at hj2
          cases hj2
          exact ⟨hc, hs⟩
        · rw [Function.update_noteq hji] at hj2
          exact hI.doneInv j b hj2
  | casWin i hpc hc =>
      obtain ⟨hcnt, hst, hall⟩ := hI.uninit hc
      refine ⟨hI.td, ?_, ?_, ?_, ?_⟩
      · intro hu; exact CellState.noConfusion hu
      · intro _
        refine ⟨i, ?_, ?_, ?_, ?_⟩
        · show (Function.update s.pcs i PC.runInit i).isActive = true
          rw [Function.update_same]; rfl
        · intro j hj
          by_cases hji : j = i
          · exact hji
          · have hj2 : (Function.update s.pcs i PC.runInit j).isActive = true := hj
            rw [Function.update_noteq hji, hall j] at hj2
            exact Bool.noConfusion hj2
        · intro hpub
          have hpub2 : Function.update s.pcs i PC.runInit i = PC.publish := hpub
          rw [Function.update_same] at hpub2
          exact PC.noConfusion hpub2
        · intro _; exact ⟨hcnt, hst⟩
      · intro hz; exact CellState.noConfusion hz
      · intro j b hj
        have hj2 : Function.update s.pcs i PC.runInit j = PC.done b := hj
        by_cases hji : j = i
        · subst hji; rw [Function.update_same] at hj2; exact PC.noConfusion hj2
        · rw [Function.update_noteq hji, hall j] at hj2
          exact PC.noConfusion hj2
  | casLose i hpc hc =>
      obtain ⟨w, hwa, huniq, hpub, hnpub⟩ := hI.claiming hc
      have hiw : i ≠ w := by
        intro hiw; rw [← hiw, hpc] at hwa; exact Bool.noConfusion hwa
      refine ⟨hI.td, ?_, ?_, ?_, ?_⟩
      · intro hu; exact CellState.noConfusion (hc.symm.trans hu)
      · intro _
        refine ⟨w, ?_, ?_, ?_, ?_⟩
        · show (Function.update s.pcs i PC.spinning w).isActive = true
          rw [Function.update_noteq (Ne.symm hiw)]
          exact hwa
        · intro j hj
          have hj2 : (Function.update s.pcs i PC.spinning j).isActive = true := hj
          by_cases hji : j = i
          · subst hji; rw [Function.update_same] at hj2
            exact Bool.noConfusion hj2
          · rw [Function.update_noteq hji] at hj2
            exact huniq j hj2
        · intro hpub2
          have hpub3 : Function.update s.pcs i PC.spinning w = PC.publish := hpub2
          rw [Function.update_noteq (Ne.symm hiw)] at hpub3
          exact hpub hpub3
        · intro hnp
          refine hnpub ?_
          intro hw
          refine hnp ?_
          show Function.update s.pcs i PC.spinning w = PC.publish
          rw [Function.update_noteq (Ne.symm hiw)]
          exact hw
      · intro hz; exact CellState.noConfusion (hc.symm.trans hz)
      · intro j b hj
        have hj2 : Function.update s.pcs i PC.spinning j = PC.done b := hj
        by_cases hji : j = i
        · subst hji; rw [Function.update_same] at hj2
          exact PC.noConfusion hj2
        · rw [Function.update_noteq hji] at hj2
          have h2 := (hI.doneInv j b hj2).1
          exact CellState.noConfusion (hc.symm.trans h2)
  | spinExit i a hpc hc hs =>
      refine ⟨hI.td, ?_, ?_, ?_, ?_⟩
      · intro hu; exact CellState.noConfusion (hc.symm.trans hu)
      · intro hcl; exact CellState.noConfusion (hc.symm.trans hcl)
      · intro _
        obtain ⟨hcnt, hst, hact⟩ := hI.published hc
        refine ⟨hcnt, hst, ?_⟩
        intro j
        show (Function.update s.pcs i (PC.done a) j).isActive = false
        by_cases hji : j = i
        · subst hji; rw [Function.update_same]; rfl
        · rw [Function.update_noteq hji]; exact hact j
      · intro j b hj
        have hj2 : Function.update s.pcs i (PC.done a) j = PC.done b := hj
        by_cases hji : j = i
        · subst hji
          rw [Function.update_same] at hj2
          cases hj2
          exact ⟨hc, hs⟩
        · rw [Function.update_noteq hji] at hj2
          exact hI.doneInv j b hj2
  | initOk i v hpc =>
      have hai : (s.pcs i).isActive = true := by rw [hpc]; rfl
      obtain ⟨hcell, huniq, _, hnpub⟩ := hI.active_winner hai
      obtain ⟨hcnt, hst⟩ := hnpub (by rw [hpc]; decide)
      refine ⟨hI.td, ?_, ?_, ?_, ?_⟩
      · intro hu; exact CellState.noConfusion (hcell.symm.trans hu)
      · intro _
        refine ⟨i, ?_, ?_, ?_, ?_⟩
        · show (Function.update s.pcs i PC.publish i).isActive = true
          rw [Function.update_same]; rfl
        · intro j hj
          by_cases hji : j = i
          · exact hji
          · have hj2 : (Function.update s.pcs i PC.publish j).isActive = true := hj
            rw [Function.update_noteq hji] at hj2
            exact huniq j hj2
        · intro _
          refine ⟨?_, v, rfl⟩
          show s.counter + 1 = 1
          rw [hcnt]
        · intro hb
          have hb2 : Function.update s.pcs i PC.publish i = PC.publish :=
            Function.update_same i PC.publish s.pcs
          exact absurd hb2 hb
      · intro hz; exact CellState.noConfusion (hcell.symm.trans hz)
      · intro j b hj
        have hj2 : Function.update s.pcs i PC.publish j = PC.done b := hj
        by_cases hji : j = i
        · subst hji; rw [Function.update_same] at hj2
          exact PC.noConfusion hj2
        · rw [Function.update_noteq hji] at hj2
          have h2 := (hI.doneInv j b hj2).1
          exact CellState.noConfusion (hcell.symm.trans h2)
  | initPanic i hpc =>
      have hai : (s.pcs i).isActive = true := by rw [hpc]; rfl
      obtain ⟨hcell, huniq, _, hnpub⟩ := hI.active_winner hai
      obtain ⟨hcnt, hst⟩ := hnpub (by rw [hpc]; decide)
      refine ⟨hI.td, ?_, ?_, ?_, ?_⟩
      · intro hu; exact CellState.noConfusion (hcell.symm.trans hu)
      · intro _
        refine ⟨i, ?_, ?_, ?_, ?_⟩
        · show (Function.update s.pcs i PC.panicked i).isActive = true
          rw [Function.update_same]; rfl
        · intro j hj
          by_cases hji : j = i
          · exact hji
          · have hj2 : (Function.update s.pcs i PC.panicked j).isActive = true := hj
            rw [Function.update_noteq hji] at hj2
            exact huniq j hj2
        · intro hpub2
          have hpub3 : Function.update s.pcs i PC.panicked i = PC.publish := hpub2
          rw [Function.update_same] at hpub3
          exact PC.noConfusion hpub3
        · intro _; exact ⟨hcnt, hst⟩
      · intro hz; exact CellState.noConfusion (hcell.symm.trans hz)
      · intro j b hj
        have hj2 : Function.update s.pcs i PC.panicked j = PC.done b := hj
        by_cases hji : j = i
        · subst hji; rw [Function.update_same] at hj2
          exact PC.noConfusion hj2
        · rw [Function.update_noteq hji] at hj2
          have h2 := (hI.doneInv j b hj2).1
          exact CellState.noConfusion (hcell.symm.trans h2)
  | initRecurse i hpc =>
      have hai : (s.pcs i).isActive = true := by rw [hpc]; rfl
      obtain ⟨hcell, huniq, _, hnpub⟩ := hI.active_winner hai
      obtain ⟨hcnt, hst⟩ := hnpub (by rw [hpc]; decide)
      refine ⟨hI.td, ?_, ?_, ?_, ?_⟩
      · intro hu; exact CellState.noConfusion (hcell.symm.trans hu)
      · intro _
        refine ⟨i, ?_, ?_, ?_, ?_⟩
        · show (Function.update s.pcs i PC.recStart i).isActive = true
          rw [Function.update_same]; rfl
        · intro j hj
          by_cases hji : j = i
          · exact hji
          · have hj2 : (Function.update s.pcs i PC.recStart j).isActive = true := hj
            rw [Function.update_noteq hji] at hj2
            exact huniq j hj2
        · intro hpub2
          have hpub3 : Function.update s.pcs i PC.recStart i = PC.publish := hpub2
          rw [Function.update_same] at hpub3
          exact PC.noConfusion hpub3
        · intro _; exact ⟨hcnt, hst⟩
      · intro hz; exact CellState.noConfusion (hcell.symm.trans hz)
      · intro j b hj
        have hj2 : Function.update s.pcs i PC.recStart j = PC.done b := hj
        by_cases hji : j = i
        · subst hji; rw [Function.update_same] at hj2
          exact PC.noConfusion hj2
        · rw [Function.update_noteq hji] at hj2
          have h2 := (hI.doneInv j b hj2).1
          exact CellState.noConfusion (hcell.symm.trans h2)
  | publishInit i a hpc hs =>
      have hai : (s.pcs i).isActive = true := by rw [hpc]; rfl
      obtain ⟨hcell, huniq, hpub, _⟩ := hI.active_winner hai
      obtain ⟨hcnt, _⟩ := hpub hpc
      refine ⟨hI.td, ?_, ?_, ?_, ?_⟩
      · intro hu; exact CellState.noConfusion hu
      · intro hcl; exact CellState.noConfusion hcl
      · intro _
        refine ⟨hcnt, ⟨a, hs⟩, ?_⟩
        intro j
        show (Function.update s.pcs i (PC.done a) j).isActive = false
        by_cases hji : j = i
        · subst hji; rw [Function.update_same]; rfl
        · rw [Function.update_noteq hji]
          cases hact : (s.pcs j).isActive with
          | false => rfl
          | true => exact absurd (huniq j hact) hji
      · intro j b hj
        have hj2 : Function.update s.pcs i (PC.done a) j = PC.done b := hj
        by_cases hji : j = i
        · subst hji
          rw [Function.update_same] at hj2
          cases hj2
          exact ⟨rfl, hs⟩
        · rw [Function.update_noteq hji] at hj2
          have h2 := (hI.doneInv j b hj2).1
          exact CellState.noConfusion (hcell.symm.trans h2)
  | recFast i hpc hc =>
      have hact := (hI.published hc).2.2 i
      rw [hpc] at hact
      exact Bool.noConfusion hact
  | recWin i hpc hc =>
      have hst := (hI.uninit hc).2.2 i
      rw [hpc] at hst
      exact PC.noConfusion hst
  | recLose i hpc hc =>
      have hai : (s.pcs i).isActive = true := by rw [hpc]; rfl
      obtain ⟨hcell, huniq, _, hnpub⟩ := hI.active_winner hai
      obtain ⟨hcnt, hst⟩ := hnpub (by rw [hpc]; decide)
      refine ⟨hI.td, ?_, ?_, ?_, ?_⟩
      · intro hu; exact CellState.noConfusion (hcell.symm.trans hu)
      · intro _
        refine ⟨i, ?_, ?_, ?_, ?_⟩
        · show (Function.update s.pcs i PC.recSpin i).isActive = true
          rw [Function.update_same]; rfl
        · intro j hj
          by_cases hji : j = i
          · exact hji
          · have hj2 : (Function.update s.pcs i PC.recSpin j).isActive = true := hj
            rw [Function.update_noteq hji] at hj2
            exact huniq j hj2
        · intro hpub2
          have hpub3 : Function.update s.pcs i PC.recSpin i = PC.publish := hpub2
          rw [Function.update_same] at hpub3
          exact PC.noConfusion hpub3
        · intro _; exact ⟨hcnt, hst⟩
      · intro hz; exact CellState.noConfusion (hcell.symm.trans hz)
      · intro j b hj
        have hj2 : Function.update s.pcs i PC.recSpin j = PC.done b := hj
        by_cases hji : j = i
        · subst hji; rw [Function.update_same] at hj2
          exact PC.noConfusion hj2
        · rw [Function.update_noteq hji] at hj2
          have h2 := (hI.doneInv j b hj2).1
          exact CellState.noConfusion (hcell.symm.trans h2)

/-- Every reachable configuration satisfies the invariant. -/
theorem Reachable.inv {n : Nat} {s : Sys n} (h : Reachable s) : SysInv s := by
  induction h with
  | refl => exact SysInv.initial n
  | tail _ hstep ih => exact SysInv.preserved ih hstep

/-- The initializer runs at most once: the side-effect counter never
exceeds 1. -/
theorem SysInv.counter_le_one {n : Nat} {s : Sys n} (hI : SysInv s) :
    s.counter ≤ 1 := by
  cases hcell : s.cell with
  | uninitialized =>
      rw [(hI.uninit hcell).1]; exact Nat.zero_le 1
  | initializing =>
      obtain ⟨w, _, _, hpub, hnpub⟩ := hI.claiming hcell
      by_cases hw : s.pcs w = PC.publish
      · exact Nat.le_of_eq (hpub hw).1
      · rw [(hnpub hw).1]; exact Nat.zero_le 1
  | initialized => exact Nat.le_of_eq (hI.published hcell).1

/-- Once the storage is written, no step ever changes it. -/
theorem Step.storage_stable {n : Nat} {s s' : Sys n} (hI : SysInv s)
    (h : Step s s') {a : Nat} (hs : s.storage = some a) :
    s'.storage = some a := by
  cases h with
  | fastPath i a2 hpc hc hs2 => exact hs
  | casWin i hpc hc => exact hs
  | casLose i hpc hc => exact hs
  | spinExit i a2 hpc hc hs2 => exact hs
  | initOk i v hpc =>
      have hai : (s.pcs i).isActive = true := by rw [hpc]; rfl
      obtain ⟨_, _, _, hnpub⟩ := hI.active_winner hai
      have hnone := (hnpub (by rw [hpc]; decide)).2
      rw [hs] at hnone
      exact Option.noConfusion hnone
  | initPanic i hpc => exact hs
  | initRecurse i hpc => exact hs
  | publishInit i a2 hpc hs2 => exact hs
  | recFast i hpc hc => exact hs
  | recWin i hpc hc => exact hs
  | recLose i hpc hc => exact hs

/-- Once the storage is written, it is stable under any run of steps, and
the invariant persists. -/
theorem SysInv.rtc_storage {n : Nat} {s s' : Sys n} (hI : SysInv s)
    (h : Relation.ReflTransGen Step s s') {a : Nat} (hs : s.storage = some a) :
    s'.storage = some a ∧ SysInv s' := by
  induction h with
  | refl => exact ⟨hs, hI⟩
  | tail _ hstep ih =>
      exact ⟨Step.storage_stable ih.2 hstep ih.1, SysInv.preserved ih.2 hstep⟩

/-- The configuration of a cell whose winning initializer panicked: the
winner is marked panicked, the cell is stuck mid-initialization, nothing was
stored or counted, and every other thread is merely starting or spinning. -/
def StuckPanic {n : Nat} (w : Fin n) (s : Sys n) : Prop :=
  s.pcs w = PC.panicked ∧ s.cell = CellState.initializing ∧
  s.storage = Option.none ∧ s.counter = 0 ∧
  ∀ i, i ≠ w → s.pcs i = PC.start ∨ s.pcs i = PC.spinning

/-- The configuration of a cell whose winning initializer recursively called
the Accessor on the same cell: the winner is inside the nested call (about to
fail its claim, or already spinning), the cell is stuck mid-initialization,
and every other thread is merely starting or spinning. -/
def StuckRec {n : Nat} (w : Fin n) (s : Sys n) : Prop :=
  (s.pcs w = PC.recStart ∨ s.pcs w = PC.recSpin) ∧
  s.cell = CellState.initializing ∧
  s.storage = Option.none ∧ s.counter = 0 ∧
  ∀ i, i ≠ w → s.pcs i = PC.start ∨ s.pcs i = PC.spinning

/-- From the invariant, a panicked thread forces the stuck-panic
configuration. -/
theorem SysInv.panicked_stuck {n : Nat} {s : Sys n} (hI : SysInv s)
    {w : Fin n} (hw : s.pcs w = PC.panicked) : StuckPanic w s := by
  have hai : (s.pcs w).isActive = true := by rw [hw]; rfl
  obtain ⟨hcell, huniq, _, hnpub⟩ := hI.active_winner hai
  obtain ⟨hcnt, hst⟩ := hnpub (by rw [hw]; decide)
  refine ⟨hw, hcell, hst, hcnt, ?_⟩
  intro j hjw
  cases hpj : s.pcs j with
  | start => exact Or.inl rfl
  | spinning => exact Or.inr rfl
  | runInit => exact absurd (huniq j (by rw [hpj]; rfl)) hjw
  | publish => exact absurd (huniq j (by rw [hpj]; rfl)) hjw
  | panicked => exact absurd (huniq j (by rw [hpj]; rfl)) hjw
  | recStart => exact absurd (huniq j (by rw [hpj]; rfl)) hjw
  | recSpin => exact absurd (huniq j (by rw [hpj]; rfl)) hjw
  | done a =>
      have h2 := (hI.doneInv j a hpj).1
      exact CellState.noConfusion (hcell.symm.trans h2)

/-- From the invariant, a thread inside a recursive self-access forces the
stuck-recursion configuration. -/
theorem SysInv.rec_stuck {n : Nat} {s : Sys n} (hI : SysInv s)
    {w : Fin n} (hw : s.pcs w = PC.recStart ∨ s.pcs w = PC.recSpin) :
    StuckRec w s := by
  have hai : (s.pcs w).isActive = true := by
    cases hw with
    | inl h => rw [h]; rfl
    | inr h => rw [h]; rfl
  obtain ⟨hcell, huniq, _, hnpub⟩ := hI.active_winner hai
  obtain ⟨hcnt, hst⟩ := hnpub (by
    cases hw with
    | inl h => rw [h]; decide
    | inr h => rw [h]; decide)
  refine ⟨hw, hcell, hst, hcnt, ?_⟩
  intro j hjw
  cases hpj : s.pcs j with
  | start => exact Or.inl rfl
  | spinning => exact Or.inr rfl
  | runInit => exact absurd (huniq j (by rw [hpj]; rfl)) hjw
  | publish => exact absurd (huniq j (by rw [hpj]; rfl)) hjw
  | panicked => exact absurd (huniq j (by rw [hpj]; rfl)) hjw
  | recStart => exact absurd (huniq j (by rw [hpj]; rfl)) hjw
  | recSpin => exact absurd (huniq j (by rw [hpj]; rfl)) hjw
  | done a =>
      have h2 := (hI.doneInv j a hpj).1
      exact CellState.noConfusion (hcell.symm.trans h2)

/-- In a stuck-panic configuration, every thread is panicked (the winner),
starting, or spinning. -/
theorem stuck_panic_pcs_elim {n : Nat} {w : Fin n} {s : Sys n}
    (hq : StuckPanic w s) {i : Fin n} {p : PC} (hpc : s.pcs i = p)
    (h1 : p ≠ PC.panicked) (h2 : p ≠ PC.start) (h3 : p ≠ PC.spinning) :
    False := by
  by_cases hiw : i = w
  · subst hiw; exact h1 (hpc.symm.trans hq.1)
  · cases hq.2.2.2.2 i hiw with
    | inl hx => exact h2 (hpc.symm.trans hx)
    | inr hx => exact h3 (hpc.symm.trans hx)

/-- In a stuck-recursion configuration, every thread is in the nested call
(the winner), starting, or spinning. -/
theorem stuck_rec_pcs_elim {n : Nat} {w : Fin n} {s : Sys n}
    (hq : StuckRec w s) {i : Fin n} {p : PC} (hpc : s.pcs i = p)
    (h1 : p ≠ PC.recStart) (h2 : p ≠ PC.recSpin) (h3 : p ≠ PC.start)
    (h4 : p ≠ PC.spinning) : False := by
  by_cases hiw : i = w
  · subst hiw
    cases hq.1 with
    | inl hx => exact h1 (hpc.symm.trans hx)
    | inr hx => exact h2 (hpc.symm.trans hx)
  · cases hq.2.2.2.2 i hiw with
    | inl hx => exact h3 (hpc.symm.trans hx)
    | inr hx => exact h4 (hpc.symm.trans hx)

/-- A stuck-panic configuration persists across any single step (the only
possible step is a fresh caller losing the CAS and starting to spin), and no
spinning thread ever leaves its spin-wait. -/
theorem stuck_panic_step {n : Nat} {w : Fin n} {s s' : Sys n}
    (hq : StuckPanic w s) (h : Step s s') :
    StuckPanic w s' ∧ ∀ i, s.pcs i = PC.spinning → s'.pcs i = PC.spinning := by
  cases h with
  | fastPath i a hpc hc hs =>
      exact CellState.noConfusion (hq.2.1.symm.trans hc)
  | casWin i hpc hc =>
      exact CellState.noConfusion (hq.2.1.symm.trans hc)
  | casLose i hpc hc =>
      have hiw : i ≠ w := by
        intro he; subst he; rw [hq.1] at hpc; exact PC.noConfusion hpc
      refine ⟨⟨?_, hq.2.1, hq.2.2.1, hq.2.2.2.1, ?_⟩, ?_⟩
      · show Function.update s.pcs i PC.spinning w = PC.panicked
        rw [Function.update_noteq (Ne.symm hiw)]
        exact hq.1
      · intro j hjw
        show Function.update s.pcs i PC.spinning j = PC.start ∨
             Function.update s.pcs i PC.spinning j = PC.spinning
        by_cases hji : j = i
        · subst hji; rw [Function.update_same]; exact Or.inr rfl
        · rw [Function.update_noteq hji]
          exact hq.2.2.2.2 j hjw
      · intro k hk
        show Function.update s.pcs i PC.spinning k = PC.spinning
        by_cases hki : k = i
        · subst hki; rw [Function.update_same]
        · rw [Function.update_noteq hki]; exact hk
  | spinExit i a hpc hc hs =>
      exact CellState.noConfusion (hq.2.1.symm.trans hc)
  | initOk i v hpc =>
      exact (stuck_panic_pcs_elim hq hpc (by decide) (by decide) (by decide)).elim
  | initPanic i hpc =>
      exact (stuck_panic_pcs_elim hq hpc (by decide) (by decide) (by decide)).elim
  | initRecurse i hpc =>
      exact (stuck_panic_pcs_elim hq hpc (by decide) (by decide) (by decide)).elim
  | publishInit i a hpc hs =>
      exact (stuck_panic_pcs_elim hq hpc (by decide) (by decide) (by decide)).elim
  | recFast i hpc hc =>
      exact CellState.noConfusion (hq.2.1.symm.trans hc)
  | recWin i hpc hc =>
      exact CellState.noConfusion (hq.2.1.symm.trans hc)
  | recLose i hpc hc =>
      exact (stuck_panic_pcs_elim hq hpc (by decide) (by decide) (by decide)).elim

/-- A stuck-recursion configuration persists across any single step (the
winner may move from its failed claim into the spin-wait, and fresh callers
may lose the CAS and start to spin), and no spinning thread ever leaves its
spin-wait. -/
theorem stuck_rec_step {n : Nat} {w : Fin n} {s s' : Sys n}
    (hq : StuckRec w s) (h : Step s s') :
    StuckRec w s' ∧ ∀ i, s.pcs i = PC.spinning → s'.pcs i = PC.spinning := by
  cases h with
  | fastPath i a hpc hc hs =>
      exact CellState.noConfusion (hq.2.1.symm.trans hc)
  | casWin i hpc hc =>
      exact CellState.noConfusion (hq.2.1.symm.trans hc)
  | casLose i hpc hc =>
      have hiw : i ≠ w := by
        intro he; subst he
        cases hq.1 with
        | inl hx => rw [hx] at hpc; exact PC.noConfusion hpc
        | inr hx => rw [hx] at hpc; exact PC.noConfusion hpc
      refine ⟨⟨?_, hq.2.1, hq.2.2.1, hq.2.2.2.1, ?_⟩, ?_⟩
      · show Function.update s.pcs i PC.spinning w = PC.recStart ∨
             Function.update s.pcs i PC.spinning w = PC.recSpin
        rw [Function.update_noteq (Ne.symm hiw)]
        exact hq.1
      · intro j hjw
        show Function.update s.pcs i PC.spinning j = PC.start ∨
             Function.update s.pcs i PC.spinning j = PC.spinning
        by_cases hji : j = i
        · subst hji; rw [Function.update_same]; exact Or.inr rfl
        · rw [Function.update_noteq hji]
          exact hq.2.2.2.2 j hjw
      · intro k hk
        show Function.update s.pcs i PC.spinning k = PC.spinning
        by_cases hki : k = i
        · subst hki; rw [Function.update_same]
        · rw [Function.update_noteq hki]; exact hk
  | spinExit i a hpc hc hs =>
      exact CellState.noConfusion (hq.2.1.symm.trans hc)
  | initOk i v hpc =>
      exact (stuck_rec_pcs_elim hq hpc (by decide) (by decide) (by decide)
        (by decide)).elim
  | initPanic i hpc =>
      exact (stuck_rec_pcs_elim hq hpc (by decide) (by decide) (by decide)
        (by decide)).elim
  | initRecurse i hpc =>
      exact (stuck_rec_pcs_elim hq hpc (by decide) (by decide) (by decide)
        (by decide)).elim
  | publishInit i a hpc hs =>
      exact (stuck_rec_pcs_elim hq hpc (by decide) (by decide) (by decide)
        (by decide)).elim
  | recFast i hpc hc =>
      exact CellState.noConfusion (hq.2.1.symm.trans hc)
  | recWin i hpc hc =>
      exact CellState.noConfusion (hq.2.1.symm.trans hc)
  | recLose i hpc hc =>
      by_cases hiw : i = w
      · subst hiw
        refine ⟨⟨?_, hq.2.1, hq.2.2.1, hq.2.2.2.1, ?_⟩, ?_⟩
        · show Function.update s.pcs i PC.recSpin i = PC.recStart ∨
               Function.update s.pcs i PC.recSpin i = PC.recSpin
          rw [Function.update_same]
          exact Or.inr rfl
        · intro j hjw
          show Function.update s.pcs i PC.recSpin j = PC.start ∨
               Function.update s.pcs i PC.recSpin j = PC.spinning
          rw [Function.update_noteq hjw]
          exact hq.2.2.2.2 j hjw
        · intro k hk
          show Function.update s.pcs i PC.recSpin k = PC.spinning
          have hki : k ≠ i := by
            intro he; subst he; rw [hk] at hpc; exact PC.noConfusion hpc
          rw [Function.update_noteq hki]; exact hk
      · cases hq.2.2.2.2 i hiw with
        | inl hx => rw [hx] at hpc; exact PC.noConfusion hpc
        | inr hx => rw [hx] at hpc; exact PC.noConfusion hpc

/-- A stuck-panic configuration persists under any run of steps. -/
theorem stuck_panic_rtc {n : Nat} {w : Fin n} {s s' : Sys n}
    (hq : StuckPanic w s) (h : Relation.ReflTransGen Step s s') :
    StuckPanic w s' ∧ ∀ i, s.pcs i = PC.spinning → s'.pcs i = PC.spinning := by
  induction h with
  | refl => exact ⟨hq, fun _ hi => hi⟩
  | tail _ hstep ih =>
      obtain ⟨hq2, hsp⟩ := ih
      obtain ⟨hq3, hsp2⟩ := stuck_panic_step hq2 hstep
      exact ⟨hq3, fun i hi => hsp2 i (hsp i hi)⟩

/-- A stuck-recursion configuration persists under any run of steps. -/
theorem stuck_rec_rtc {n : Nat} {w : Fin n} {s s' : Sys n}
    (hq : StuckRec w s) (h : Relation.ReflTransGen Step s s') :
    StuckRec w s' ∧ ∀ i, s.pcs i = PC.spinning → s'.pcs i = PC.spinning := by
  induction h with
  | refl => exact ⟨hq, fun _ hi => hi⟩
  | tail _ hstep ih =>
      obtain ⟨hq2, hsp⟩ := ih
      obtain ⟨hq3, hsp2⟩ := stuck_rec_step hq2 hstep
      exact ⟨hq3, fun i hi => hsp2 i (hsp i hi)⟩

/-- A concrete two-thread run: fresh cell, both threads about to call the
Accessor. -/
def exec0 : Sys 2 := Sys.init 2

/-- Thread 0 wins the claiming CAS. -/
def exec1 : Sys 2 :=
  { exec0 with cell := CellState.initializing
               pcs := Function.update exec0.pcs 0 PC.runInit }

/-- Thread 0's initializer returns; the value is stored at address 42. -/
def exec2 : Sys 2 :=
  { exec1 with storage := some 42
               counter := exec1.counter + 1
               pcs := Function.update exec1.pcs 0 PC.publish }

/-- Thread 0 publishes and returns the reference. -/
def exec3 : Sys 2 :=
  { exec2 with cell := CellState.initialized
               pcs := Function.update exec2.pcs 0 (PC.done 42) }

/-- Thread 1 takes the fast path and returns the same reference. -/
def exec4 : Sys 2 :=
  { exec3 with pcs := Function.update exec3.pcs 1 (PC.done 42) }

theorem exec_step01 : Step exec0 exec1 := Step.casWin exec0 0 rfl rfl

theorem exec_step12 : Step exec1 exec2 := Step.initOk exec1 0 42 rfl

theorem exec_step23 : Step exec2 exec3 := Step.publishInit exec2 0 42 rfl rfl

theorem exec_step34 : Step exec3 exec4 := Step.fastPath exec3 1 42 rfl rfl rfl

theorem exec1_reachable : Reachable exec1 :=
  Relation.ReflTransGen.tail Relation.ReflTransGen.refl exec_step01

theorem exec2_reachable : Reachable exec2 :=
  Relation.ReflTransGen.tail exec1_reachable exec_step12

theorem exec3_reachable : Reachable exec3 :=
  Relation.ReflTransGen.tail exec2_reachable exec_step23

theorem exec4_reachable : Reachable exec4 :=
  Relation.ReflTransGen.tail exec3_reachable exec_step34

/-- A concrete run in which the winner's initializer panics. -/
def panicked2 : Sys 2 :=
  { exec1 with pcs := Function.update exec1.pcs 0 PC.panicked }

theorem panic_step : Step exec1 panicked2 := Step.initPanic exec1 0 rfl

theorem panicked2_reachable : Reachable panicked2 :=
  Relation.ReflTransGen.tail exec1_reachable panic_step

/-- A concrete run in which the winner's initializer recursively calls the
Accessor on its own cell. -/
def recursed2 : Sys 2 :=
  { exec1 with pcs := Function.update exec1.pcs 0 PC.recStart }

/-- The nested call fails its claim and enters the spin-wait. -/
def recursed3 : Sys 2 :=
  { recursed2 with pcs := Function.update recursed2.pcs 0 PC.recSpin }

theorem rec_step12 : Step exec1 recursed2 := Step.initRecurse exec1 0 rfl

theorem rec_step23 : Step recursed2 recursed3 := Step.recLose recursed2 0 rfl rfl

theorem recursed2_reachable : Reachable recursed2 :=
  Relation.ReflTransGen.tail exec1_reachable rec_step12

theorem recursed3_reachable : Reachable recursed3 :=
  Relation.ReflTransGen.tail recursed2_reachable rec_step23

/-- Claim C1: over any reachable configuration the user-supplied initializer
has been evaluated at most once, and in any run in which every Accessor call
has returned (N ≥ 1 callers, any interleaving) its side-effect counter is
exactly 1. -/
theorem accessor_exactly_once {n : Nat} (s : Sys n) (h : Reachable s) :
    s.counter ≤ 1 ∧
    ((∀ i, (s.pcs i).isDone = true) → 1 ≤ n → s.counter = 1) := by
  have hI := h.inv
  refine ⟨hI.counter_le_one, ?_⟩
  intro hall hn
  have h0 : 0 < n := hn
  have hd := hall ⟨0, h0⟩
  obtain ⟨a, ha⟩ : ∃ a, s.pcs ⟨0, h0⟩ = PC.done a := by
    cases hp : s.pcs ⟨0, h0⟩ with
    | done a => exact ⟨a, rfl⟩
    | start => rw [hp] at hd; exact Bool.noConfusion hd
    | spinning => rw [hp] at hd; exact Bool.noConfusion hd
    | runInit => rw [hp] at hd; exact Bool.noConfusion hd
    | publish => rw [hp] at hd; exact Bool.noConfusion hd
    | panicked => rw [hp] at hd; exact Bool.noConfusion hd
    | recStart => rw [hp] at hd; exact Bool.noConfusion hd
    | recSpin => rw [hp] at hd; exact Bool.noConfusion hd
  exact (hI.published (hI.doneInv _ a ha).1).1

theorem accessor_exactly_once_witness :
    exec4.counter ≤ 1 ∧ exec4.counter = 1 := by
  have h := accessor_exactly_once exec4 exec4_reachable
  exact ⟨h.1, h.2 (by decide) (by decide)⟩

/-- Claim C2: once a call has returned the reference with address `a`, every
call that returns in that or any later configuration returns the very same
address, the storage keeps holding `a`, and the cell stays `Initialized`. -/
theorem accessor_address_stable {n : Nat} (s s' : Sys n) (h : Reachable s)
    (hss : Relation.ReflTransGen Step s s') (i j : Fin n) (a b : Nat)
    (hi : s.pcs i = PC.done a) (hj : s'.pcs j = PC.done b) :
    b = a ∧ s'.storage = some a ∧ s'.cell = CellState.initialized := by
  have hI := h.inv
  obtain ⟨hcell, hst⟩ := hI.doneInv i a hi
  obtain ⟨hst', hI'⟩ := SysInv.rtc_storage hI hss hst
  obtain ⟨hcell', hstb⟩ := hI'.doneInv j b hj
  rw [hst'] at hstb
  exact ⟨(Option.some.inj hstb).symm, hst', hcell'⟩

theorem accessor_address_stable_witness :
    (42 : Nat) = 42 ∧ exec4.storage = some 42 ∧
    exec4.cell = CellState.initialized :=
  accessor_address_stable exec3 exec4 exec3_reachable
    (Relation.ReflTransGen.tail Relation.ReflTransGen.refl exec_step34)
    0 1 42 42 (by decide) (by decide)

/-- Claim C4: the cell state starts `Uninitialized`; every step either keeps
the state or moves `Uninitialized → Initializing` or
`Initializing → Initialized`; `Initialized` is terminal; while
`Initializing` there is exactly one claim-holding winner; and the
`Initializing → Initialized` transition is performed only by that winner
(the thread at the publication point). -/
theorem cell_state_machine {n : Nat} (s s' : Sys n) (h : Reachable s)
    (hst : Step s s') :
    (Sys.init n).cell = CellState.uninitialized ∧
    (s.cell = s'.cell ∨
      (s.cell = CellState.uninitialized ∧ s'.cell = CellState.initializing) ∨
      (s.cell = CellState.initializing ∧ s'.cell = CellState.initialized)) ∧
    (s.cell = CellState.initialized → s'.cell = CellState.initialized) ∧
    (s.cell = CellState.initializing → ∃! w, (s.pcs w).isActive = true) ∧
    (s.cell = CellState.initializing → s'.cell = CellState.initialized →
      ∃ w a, s.pcs w = PC.publish ∧ s.storage = some a ∧
        s'.pcs w = PC.done a) := by
  refine ⟨rfl, ?_, ?_, ?_, ?_⟩
  · cases hst with
    | fastPath i a hpc hc hs => exact Or.inl rfl
    | casWin i hpc hc => exact Or.inr (Or.inl ⟨hc, rfl⟩)
    | casLose i hpc hc => exact Or.inl rfl
    | spinExit i a hpc hc hs => exact Or.inl rfl
    | initOk i v hpc => exact Or.inl rfl
    | initPanic i hpc => exact Or.inl rfl
    | initRecurse i hpc => exact Or.inl rfl
    | publishInit i a hpc hs =>
        have hai : (s.pcs i).isActive = true := by rw [hpc]; rfl
        exact Or.inr (Or.inr ⟨(h.inv.active_winner hai).1, rfl⟩)
    | recFast i hpc hc => exact Or.inl rfl
    | recWin i hpc hc => exact Or.inr (Or.inl ⟨hc, rfl⟩)
    | recLose i hpc hc => exact Or.inl rfl
  · intro hz
    cases hst with
    | fastPath i a hpc hc hs => exact hz
    | casWin i hpc hc => exact CellState.noConfusion (hc.symm.trans hz)
    | casLose i hpc hc => exact hz
    | spinExit i a hpc hc hs => exact hz
    | initOk i v hpc => exact hz
    | initPanic i hpc => exact hz
    | initRecurse i hpc => exact hz
    | publishInit i a hpc hs => rfl
    | recFast i hpc hc => exact hz
    | recWin i hpc hc => exact CellState.noConfusion (hc.symm.trans hz)
    | recLose i hpc hc => exact hz
  · intro hcl
    obtain ⟨w, hwa, huniq, _, _⟩ := h.inv.claiming hcl
    exact ⟨w, hwa, huniq⟩
  · intro hcl hz'
    cases hst with
    | fastPath i a hpc hc hs =>
        exact CellState.noConfusion (hcl.symm.trans hz')
    | casWin i hpc hc => exact CellState.noConfusion hz'
    | casLose i hpc hc =>
        exact CellState.noConfusion (hcl.symm.trans hz')
    | spinExit i a hpc hc hs =>
        exact CellState.noConfusion (hcl.symm.trans hz')
    | initOk i v hpc =>
        exact CellState.noConfusion (hcl.symm.trans hz')
    | initPanic i hpc =>
        exact CellState.noConfusion (hcl.symm.trans hz')
    | initRecurse i hpc =>
        exact CellState.noConfusion (hcl.symm.trans hz')
    | publishInit i a hpc hs =>
        refine ⟨i, a, hpc, hs, ?_⟩
        show Function.update s.pcs i (PC.done a) i = PC.done a
        rw [Function.update_same]
    | recFast i hpc hc =>
        exact CellState.noConfusion (hcl.symm.trans hz')
    | recWin i hpc hc => exact CellState.noConfusion hz'
    | recLose i hpc hc =>
        exact CellState.noConfusion (hcl.symm.trans hz')

theorem cell_state_machine_witness :
    (Sys.init 2).cell = CellState.uninitialized ∧
    (exec2.cell = exec3.cell ∨
      (exec2.cell = CellState.uninitialized ∧
        exec3.cell = CellState.initializing) ∨
      (exec2.cell = CellState.initializing ∧
        exec3.cell = CellState.initialized)) ∧
    (exec2.cell = CellState.initialized →
      exec3.cell = CellState.initialized) ∧
    (exec2.cell = CellState.initializing →
      ∃! w, (exec2.pcs w).isActive = true) ∧
    (exec2.cell = CellState.initializing →
      exec3.cell = CellState.initialized →
      ∃ w a, exec2.pcs w = PC.publish ∧ exec2.storage = some a ∧
        exec3.pcs w = PC.done a) :=
  cell_state_machine exec2 exec3 exec2_reachable exec_step23

/-- Claim C5: once the winner's initializer has panicked, in every later
configuration the winner is still marked failed, the cell is stuck in
`Initializing` (no rollback to `Uninitialized`), storage and counter are
never written (the initializer is never retried), and every spinning waiter
is still spinning. -/
theorem panic_stuck_forever {n : Nat} (s s' : Sys n) (h : Reachable s)
    (w : Fin n) (hw : s.pcs w = PC.panicked)
    (hss : Relation.ReflTransGen Step s s') :
    s'.pcs w = PC.panicked ∧ s'.cell = CellState.initializing ∧
    s'.storage = Option.none ∧ s'.counter = 0 ∧
    ∀ i, s.pcs i = PC.spinning → s'.pcs i = PC.spinning := by
  have hq := SysInv.panicked_stuck h.inv hw
  obtain ⟨hq', hsp⟩ := stuck_panic_rtc hq hss
  exact ⟨hq'.1, hq'.2.1, hq'.2.2.1, hq'.2.2.2.1, hsp⟩

theorem panic_stuck_forever_witness :
    panicked2.pcs 0 = PC.panicked ∧
    panicked2.cell = CellState.initializing ∧
    panicked2.storage = Option.none ∧ panicked2.counter = 0 ∧
    ∀ i, panicked2.pcs i = PC.spinning → panicked2.pcs i = PC.spinning :=
  panic_stuck_forever panicked2 panicked2 panicked2_reachable 0 (by decide)
    Relation.ReflTransGen.refl

/-- Claim C6: when a cell's initializer recursively calls the Accessor on
the same cell, the nested call finds the state already `Initializing`, its
claim attempt can only fail into the spin-wait, and in every later
configuration the cell has still not reached `Initialized`, the winner is
still inside the nested call, no Accessor call has returned, and every
waiter is still spinning — an undetected deadlock. -/
theorem recursive_deadlock {n : Nat} (s s' : Sys n) (h : Reachable s)
    (w : Fin n) (hw : s.pcs w = PC.recStart ∨ s.pcs w = PC.recSpin)
    (hss : Relation.ReflTransGen Step s s') :
    s.cell = CellState.initializing ∧
    (s.pcs w = PC.recStart →
      Step s { s with pcs := Function.update s.pcs w PC.recSpin }) ∧
    s'.cell ≠ CellState.initialized ∧
    (s'.pcs w = PC.recStart ∨ s'.pcs w = PC.recSpin) ∧
    (∀ i a, s'.pcs i ≠ PC.done a) ∧
    (∀ i, s.pcs i = PC.spinning → s'.pcs i = PC.spinning) := by
  have hq := SysInv.rec_stuck h.inv hw
  obtain ⟨hq', hsp⟩ := stuck_rec_rtc hq hss
  refine ⟨hq.2.1, ?_, ?_, hq'.1, ?_, hsp⟩
  · intro hrs; exact Step.recLose s w hrs hq.2.1
  · intro hz; rw [hq'.2.1] at hz; exact CellState.noConfusion hz
  · intro i a hdone
    by_cases hiw : i = w
    · subst hiw
      cases hq'.1 with
      | inl hx => rw [hx] at hdone; exact PC.noConfusion hdone
      | inr hx => rw [hx] at hdone; exact PC.noConfusion hdone
    · cases hq'.2.2.2.2 i hiw with
      | inl hx => rw [hx] at hdone; exact PC.noConfusion hdone
      | inr hx => rw [hx] at hdone; exact PC.noConfusion hdone

theorem recursive_deadlock_witness :
    recursed2.cell = CellState.initializing ∧
    (recursed2.pcs 0 = PC.recStart →
      Step recursed2
        { recursed2 with pcs := Function.update recursed2.pcs 0 PC.recSpin }) ∧
    recursed3.cell ≠ CellState.initialized ∧
    (recursed3.pcs 0 = PC.recStart ∨ recursed3.pcs 0 = PC.recSpin) ∧
    (∀ i a, recursed3.pcs i ≠ PC.done a) ∧
    (∀ i, recursed2.pcs i = PC.spinning → recursed3.pcs i = PC.spinning) :=
  recursive_deadlock recursed2 recursed3 recursed2_reachable 0
    (Or.inl (by decide))
    (Relation.ReflTransGen.tail Relation.ReflTransGen.refl rec_step23)

/-- Claim C9: normal cell operation never invokes the stored value's
teardown action (the teardown counter stays 0 forever) and never frees the
storage: once the value is stored at an address, every later configuration
still holds it there (intentional leak, stable address). -/
theorem no_finalization {n : Nat} (s s' : Sys n) (h : Reachable s)
    (hss : Relation.ReflTransGen Step s s') (a : Nat)
    (hs : s.storage = some a) :
    s'.teardowns = 0 ∧ s'.storage = some a := by
  obtain ⟨hst, hI'⟩ := SysInv.rtc_storage h.inv hss hs
  exact ⟨hI'.td, hst⟩

theorem no_finalization_witness :
    exec4.teardowns = 0 ∧ exec4.storage = some 42 :=
  no_finalization exec2 exec4 exec2_reachable
    (Relation.ReflTransGen.tail
      (Relation.ReflTransGen.tail Relation.ReflTransGen.refl exec_step23)
      exec_step34)
    42 (by decide)

/-- Modelled from the spec: a lazily-initialized cell (section 3) as seen by
a sequential caller — its state, its storage slot, and a count of how many
times the user-supplied initializer has been evaluated on it. -/
structure LazyCell (V : Type) : Type where
  state : CellState
  storage : Option V
  count : Nat
deriving DecidableEq, Repr

/-- A fresh cell: `Uninitialized`, empty storage, initializer never run. -/
def LazyCell.fresh (V : Type) : LazyCell V :=
  { state := CellState.uninitialized, storage := Option.none, count := 0 }

/-- Modelled from the spec: the Accessor (get-or-init) algorithm of section
4.3 executed by one sequential caller.  Fast path when `Initialized`; on
`Uninitialized` the caller wins the claim, evaluates `f`, stores the result
and publishes. A cell found `Initializing` (or an ill-formed `Initialized`
cell with an empty slot, which the invariants exclude) would make the caller
spin forever, returned as `none`. -/
def LazyCell.get {V : Type} (c : LazyCell V) (f : Unit → V) :
    Option (LazyCell V × V) :=
  match c.state, c.storage with
  | CellState.initialized, some v => some (c, v)
  | CellState.initialized, Option.none => Option.none
  | CellState.initializing, _ => Option.none
  | CellState.uninitialized, _ =>
      some ({ state := CellState.initialized
              storage := some (f ())
              count := c.count + 1 }, f ())

/-- Model of `LazyStatic::initialize` from lib.rs lines 144-148 (the Rust name is a
Lean keyword, hence the `Cell` suffix): `let _ = &**lazy` — evaluate the
deref (the Accessor on the hidden cell) and discard the returned
reference. -/
def LazyStatic.initializeCell {V : Type} (c : LazyCell V) (f : Unit → V) :
    Option (LazyCell V) :=
  (LazyCell.get c f).map Prod.fst

/-- The free function `initialize` from lib.rs lines 216-218 (renamed for
the same reason): delegates to `LazyStatic::initialize`. -/
def initializeStatic {V : Type} (c : LazyCell V) (f : Unit → V) :
    Option (LazyCell V) :=
  LazyStatic.initializeCell c f

/-- The spec's ExplicitInitializer (section 4.4), written from the spec's
words for comparison: perform exactly the Accessor algorithm and discard
the returned reference. -/
def explicitInitializerSpec {V : Type} (c : LazyCell V) (f : Unit → V) :
    Option (LazyCell V) :=
  (LazyCell.get c f).map Prod.fst

/-- Iterated Accessor: `m` successive calls on a cell, all with the same initializer,
returning the final cell. -/
def LazyCell.getIter {V : Type} (f : Unit → V) :
    Nat → LazyCell V → Option (LazyCell V)
  | 0, c => some c
  | Nat.succ m, c => (LazyCell.get c f).bind fun p => LazyCell.getIter f m p.1

/-- The Accessor is idempotent: a successful call leaves a cell that any
further call maps to itself, returning the same value. -/
theorem LazyCell.get_idem {V : Type} {c c' : LazyCell V} {f : Unit → V}
    {v : V} (h : LazyCell.get c f = some (c', v)) :
    LazyCell.get c' f = some (c', v) := by
  cases c with
  | mk st sl ct =>
      cases st with
      | uninitialized =>
          simp [LazyCell.get] at h
          obtain ⟨hc, hv⟩ := h
          rw [← hc, ← hv]
          simp [LazyCell.get]
      | initializing => simp [LazyCell.get] at h
      | initialized =>
          cases sl with
          | none => simp [LazyCell.get] at h
          | some w =>
              simp [LazyCell.get] at h
              obtain ⟨hc, hv⟩ := h
              rw [← hc, ← hv]
              simp [LazyCell.get]

/-- Claim C3: the free function `initialize` (via `LazyStatic::initialize`)
performs exactly the Accessor algorithm and discards the returned reference;
after one such call the initializer is never run again — every later
Accessor call (any number of them) leaves the cell unchanged and returns
the same reference as direct Accessor use — and on an already-`Initialized`
cell the call is a no-op. -/
theorem explicit_initializer_equiv {V : Type} (c c' : LazyCell V)
    (f : Unit → V) (v : V) (h : LazyCell.get c f = some (c', v)) :
    initializeStatic c f = explicitInitializerSpec c f ∧
    initializeStatic c f = some c' ∧
    LazyCell.get c' f = some (c', v) ∧
    (∀ m, LazyCell.getIter f m c' = some c') ∧
    (c.state = CellState.initialized → c' = c) := by
  refine ⟨rfl, ?_, LazyCell.get_idem h, ?_, ?_⟩
  · show (LazyCell.get c f).map Prod.fst = some c'
    rw [h]
    rfl
  · intro m
    induction m with
    | zero => rfl
    | succ m ih =>
        show (LazyCell.get c' f).bind (fun p => LazyCell.getIter f m p.1) =
          some c'
        rw [LazyCell.get_idem h]
        exact ih
  · intro hst
    cases c with
    | mk st sl ct =>
        cases hst
        cases sl with
        | none => simp [LazyCell.get] at h
        | some w =>
            simp [LazyCell.get] at h
            exact h.1.symm

theorem explicit_initializer_equiv_witness :
    initializeStatic (LazyCell.fresh Nat) (fun _ => 42) =
      explicitInitializerSpec (LazyCell.fresh Nat) (fun _ => 42) ∧
    initializeStatic (LazyCell.fresh Nat) (fun _ => 42) =
      some { state := CellState.initialized, storage := some 42, count := 1 } ∧
    LazyCell.get
        { state := CellState.initialized, storage := some 42, count := 1 }
        (fun _ => 42) =
      some ({ state := CellState.initialized, storage := some 42
              count := 1 }, 42) ∧
    (∀ m, LazyCell.getIter (fun _ => 42) m
        { state := CellState.initialized, storage := some 42, count := 1 } =
      some { state := CellState.initialized, storage := some 42
             count := 1 }) ∧
    ((LazyCell.fresh Nat).state = CellState.initialized →
      { state := CellState.initialized, storage := some 42, count := 1 } =
        LazyCell.fresh Nat) :=
  explicit_initializer_equiv (LazyCell.fresh Nat)
    { state := CellState.initialized, storage := some 42, count := 1 }
    (fun _ => 42) 42 rfl

/-- Modelled from the spec (section 3): the declared lazy values form a
family of independent cells, one per index, with no registry; an Accessor
call is directed at exactly one cell of the family. -/
def getAt {V : Type} (σ : Nat → LazyCell V) (j : Nat) (f : Unit → V) :
    Option ((Nat → LazyCell V) × V) :=
  (LazyCell.get (σ j) f).map fun p => (Function.update σ j p.1, p.2)

/-- ExplicitInitializer directed at one cell of the family. -/
def initializeAt {V : Type} (σ : Nat → LazyCell V) (j : Nat) (f : Unit → V) :
    Option (Nat → LazyCell V) :=
  (initializeStatic (σ j) f).map fun c => Function.update σ j c

/-- Claim C8: cells are independent: an Accessor call on cell `j` never
changes any other cell; its entire outcome (value returned and the new cell
`j`) depends only on cell `j` and never reads another cell (any family
agreeing at `j` produces the same outcome); and ExplicitInitializer on `j`
is the same update with the reference discarded. -/
theorem cells_independent {V : Type} (σ τ : Nat → LazyCell V) (j : Nat)
    (f : Unit → V) (σ' : Nat → LazyCell V) (v : V)
    (h : getAt σ j f = some (σ', v)) (hagree : τ j = σ j) :
    (∀ k, k ≠ j → σ' k = σ k) ∧
    (∃ τ', getAt τ j f = some (τ', v) ∧ τ' j = σ' j ∧
      ∀ k, k ≠ j → τ' k = τ k) ∧
    initializeAt σ j f = some σ' := by
  have hg0 : (LazyCell.get (σ j) f).map
      (fun p => (Function.update σ j p.1, p.2)) = some (σ', v) := h
  cases hg : LazyCell.get (σ j) f with
  | none => rw [hg] at hg0; exact Option.noConfusion hg0
  | some p =>
      rw [hg] at hg0
      have h2 := Option.some.inj hg0
      have hσ : Function.update σ j p.1 = σ' := congrArg Prod.fst h2
      have hv : p.2 = v := congrArg Prod.snd h2
      refine ⟨?_, ⟨Function.update τ j p.1, ?_, ?_, ?_⟩, ?_⟩
      · intro k hk
        rw [← hσ, Function.update_noteq hk]
      · show (LazyCell.get (τ j) f).map
            (fun q => (Function.update τ j q.1, q.2)) = some (Function.update τ j p.1, v)
        rw [hagree, hg, ← hv]
        rfl
      · rw [← hσ, Function.update_same, Function.update_same]
      · intro k hk
        rw [Function.update_noteq hk]
      · show ((LazyCell.get (σ j) f).map Prod.fst).map
            (fun c => Function.update σ j c) = some σ'
        rw [hg, ← hσ]
        rfl

theorem cells_independent_witness :
    (∀ k, k ≠ 0 →
      Function.update (fun _ : Nat => LazyCell.fresh Nat) 0
        { state := CellState.initialized, storage := some 42, count := 1 } k =
      (fun _ : Nat => LazyCell.fresh Nat) k) ∧
    (∃ τ', getAt (fun _ : Nat => LazyCell.fresh Nat) 0 (fun _ => 42) =
        some (τ', 42) ∧
      τ' 0 = Function.update (fun _ : Nat => LazyCell.fresh Nat) 0
        { state := CellState.initialized, storage := some 42, count := 1 } 0 ∧
      ∀ k, k ≠ 0 → τ' k = (fun _ : Nat => LazyCell.fresh Nat) k) ∧
    initializeAt (fun _ : Nat => LazyCell.fresh Nat) 0 (fun _ => 42) =
      some (Function.update (fun _ : Nat => LazyCell.fresh Nat) 0
        { state := CellState.initialized, storage := some 42, count := 1 }) :=
  cells_independent (fun _ => LazyCell.fresh Nat) (fun _ => LazyCell.fresh Nat)
    0 (fun _ => 42)
    (Function.update (fun _ : Nat => LazyCell.fresh Nat) 0
      { state := CellState.initialized, storage := some 42, count := 1 })
    42 rfl rfl

/-- The visibility marker of a declared item (`@PUB` / `@PRIV`,
lib.rs 119-124). -/
inductive Vis : Type
  | pub
  | priv
deriving DecidableEq, Repr

/-- One declared item of `lazy_static!` (lib.rs 174-182): attributes
(including doc comments), visibility, name, declared type, and the
initializer expression `EXPR` as a thunk (`__static_ref_initialize`). -/
structure Decl (V : Type) : Type where
  attrs : List String
  vis : Vis
  name : String
  ty : String
  init : Unit → V

/-- What `__lazy_static_internal!` generates for one declared item: a
wrapper type with the forwarded attributes/visibility and the declared
name, a `Deref` impl with the declared target type whose body is the hidden
cell's get-or-init, and a `LazyStatic::initialize` impl (deref then
discard). -/
structure Generated (V : Type) : Type where
  attrs : List String
  vis : Vis
  name : String
  target : String
  derefImpl : LazyCell V → Option (LazyCell V × V)
  initializeImpl : LazyCell V → Option (LazyCell V)

/-- The expansion performed by `__lazy_static_internal!` (lib.rs 118-170):
`@MAKE TY` forwards the attributes and visibility onto a struct named `N`;
the `Deref` impl has `Target = T` and its `deref` runs
`LAZY.get(__static_ref_initialize)` on the hidden per-type cell; the
`LazyStatic` impl derefs and discards. -/
def lazyStaticExpand {V : Type} (d : Decl V) : Generated V :=
  { attrs := d.attrs
    vis := d.vis
    name := d.name
    target := d.ty
    derefImpl := fun c => LazyCell.get c d.init
    initializeImpl := fun c => (LazyCell.get c d.init).map Prod.fst }

/-- Claim C7: the macro generates exactly one wrapper per declared item,
named as declared (the name map is one-to-one), implementing deref with the
declared target type via the cell's get-or-init on `EXPR`; attributes and
visibility are forwarded unchanged, and changing them changes neither the
generated deref nor the generated initialize body (no effect on the
lazy-initialization semantics). -/
theorem expansion_forwarding_correct {V : Type} (d e : Decl V)
    (attrs2 : List String) (vis2 : Vis) :
    (lazyStaticExpand d).name = d.name ∧
    (lazyStaticExpand d).attrs = d.attrs ∧
    (lazyStaticExpand d).vis = d.vis ∧
    (lazyStaticExpand d).target = d.ty ∧
    (∀ c, (lazyStaticExpand d).derefImpl c = LazyCell.get c d.init) ∧
    (lazyStaticExpand { d with attrs := attrs2, vis := vis2 }).derefImpl =
      (lazyStaticExpand d).derefImpl ∧
    (lazyStaticExpand { d with attrs := attrs2, vis := vis2 }).initializeImpl =
      (lazyStaticExpand d).initializeImpl ∧
    ((lazyStaticExpand d).name = (lazyStaticExpand e).name ↔
      d.name = e.name) :=
  ⟨rfl, rfl, rfl, rfl, fun _ => rfl, rfl, rfl, Iff.rfl⟩

/-- The wrapper struct generated by `@MAKE TY` (lib.rs 151-168): its only
field is a private unit field `__private_field: ()`. -/
structure WrapperTy : Type where
  __private_field : Unit

/-- The generated `Deref::deref` (lib.rs 130-142) as a function of its
receiver: the body never mentions `self`; the result comes from the hidden
per-type static cell `LAZY` via get-or-init. -/
def WrapperTy.deref {V : Type} (self : WrapperTy) (d : Decl V)
    (c : LazyCell V) : Option (LazyCell V × V) :=
  (lazyStaticExpand d).derefImpl c

/-- Claim C10: the generated deref never reads its receiver: the wrapper
type has a single inhabitant (any two receivers are equal), and deref
through any two receivers of the same wrapper type, over the same hidden
cell, yields the same result — the value is determined solely by the
wrapper type's cell. -/
theorem deref_ignores_receiver {V : Type} (s1 s2 : WrapperTy) (d : Decl V)
    (c : LazyCell V) :
    WrapperTy.deref s1 d c = WrapperTy.deref s2 d c ∧ s1 = s2 := by
  obtain ⟨⟨⟩⟩ := s1
  obtain ⟨⟨⟩⟩ := s2
  exact ⟨rfl, rfl⟩
